import Mathlib

/-!
Verification of the `shield-data` binary telemetry converter
(`src/shield_converter/converter.py`, `models.py`, `cli.py`).

The Python code is shallowly embedded:

* a binary file's content is a `List Nat` of byte values;
* a decoded record is a tuple of `Nat` fields; an IEEE-754 single-precision
  `float` field is represented by its 32-bit little-endian bit pattern
  (`struct.pack`/`struct.unpack` move those four bytes verbatim, so two
  decoded floats are the same single-precision value exactly when their bit
  patterns coincide);
* the filesystem state of one run directory is an explicit structure of
  `Option` fields (file present with given content, or absent);
* `datetime.now()` is passed in as an explicit parameter where the code
  calls it;
* strings are handled at the `List Char` level; the regular-expression
  matching of `parse_folder_name` is embedded with its ASCII semantics
  (`re.IGNORECASE` folding of ASCII letters, `\d` as `0`-`9`).
-/

/-! ## Binary record formats (converter.py lines 25-38)

`FAST_RECORD_FORMAT = "<I B 3x f"` (little-endian `uint32`, `uint8`,
three padding bytes, `float32`), `MEDIUM_RECORD_FORMAT = "<I f"`,
`SLOW_RECORD_FORMAT = "<I B 3x f"`. -/

def FAST_RECORD_SIZE : Nat := 12

def MEDIUM_RECORD_SIZE : Nat := 8

def SLOW_RECORD_SIZE : Nat := 12

/-- Value of four bytes read as a little-endian 32-bit unsigned integer,
as `struct.unpack` does for the `I` (and, at the bit-pattern level, `f`)
fields of the record formats. -/
def fromLE4 (b0 b1 b2 b3 : Nat) : Nat :=
  b0 + 256 * b1 + 65536 * b2 + 16777216 * b3

/-- Little-endian 4-byte encoding of a 32-bit unsigned integer, as
`struct.pack "<I"` produces (and `"<f"` for a float given by its bit
pattern). -/
def toLE4 (n : Nat) : List Nat :=
  [n % 256, n / 256 % 256, n / 65536 % 256, n / 16777216 % 256]

/-- Field extraction of `struct.unpack(FAST_RECORD_FORMAT, data)` on one
12-byte chunk: `timestamp_ms` from bytes 0-3, `sensor_id` from byte 4,
bytes 5-7 are the `3x` padding and are skipped, the value's bit pattern
from bytes 8-11. -/
def unpackFast : List Nat → Nat × Nat × Nat
  | b0 :: b1 :: b2 :: b3 :: sid :: _p1 :: _p2 :: _p3 :: v0 :: v1 :: v2 :: v3 :: _ =>
      (fromLE4 b0 b1 b2 b3, sid, fromLE4 v0 v1 v2 v3)
  | _ => (0, 0, 0)

/-- Field extraction of `struct.unpack(MEDIUM_RECORD_FORMAT, data)` on one
8-byte chunk: `timestamp_ms` from bytes 0-3, the value's bit pattern from
bytes 4-7. -/
def unpackMedium : List Nat → Nat × Nat
  | b0 :: b1 :: b2 :: b3 :: v0 :: v1 :: v2 :: v3 :: _ =>
      (fromLE4 b0 b1 b2 b3, fromLE4 v0 v1 v2 v3)
  | _ => (0, 0)

/-- Embedding of `parse_fast_data` (converter.py lines 61-79): repeatedly
read `FAST_RECORD_SIZE` bytes; stop as soon as fewer than a full record
remain; unpack each full chunk. -/
def parse_fast_data (bs : List Nat) : List (Nat × Nat × Nat) :=
  if 12 ≤ bs.length then
    unpackFast (bs.take 12) :: parse_fast_data (bs.drop 12)
  else []
termination_by bs.length
decreasing_by simp; omega

/-- Embedding of `parse_medium_data` (converter.py lines 82-100). -/
def parse_medium_data (bs : List Nat) : List (Nat × Nat) :=
  if 8 ≤ bs.length then
    unpackMedium (bs.take 8) :: parse_medium_data (bs.drop 8)
  else []
termination_by bs.length
decreasing_by simp; omega

/-- Embedding of `parse_slow_data` (converter.py lines 103-121); the slow
record layout coincides with the fast one. -/
def parse_slow_data (bs : List Nat) : List (Nat × Nat × Nat) :=
  if 12 ≤ bs.length then
    unpackFast (bs.take 12) :: parse_slow_data (bs.drop 12)
  else []
termination_by bs.length
decreasing_by simp; omega

/-- Packing of one fast/slow record `(timestamp_ms, sensor_id, value bit
pattern)` per the tier schema `"<I B 3x f"`, with the three padding bytes
given explicitly (they are arbitrary: `struct.pack` writes zeros, the
firmware writes reserved bytes). -/
def packFast (r : Nat × Nat × Nat) (pad : Nat × Nat × Nat) : List Nat :=
  toLE4 r.1 ++ [r.2.1] ++ [pad.1, pad.2.1, pad.2.2] ++ toLE4 r.2.2

/-- Packing of one medium record `(timestamp_ms, value bit pattern)` per
the schema `"<I f"`. -/
def packMedium (r : Nat × Nat) : List Nat :=
  toLE4 r.1 ++ toLE4 r.2

/-- In-range condition on a packed fast/slow record: the fields fit the
`uint32`/`uint8`/`float32`-bit-pattern widths. -/
def FastInRange (r : Nat × Nat × Nat) : Prop :=
  r.1 < 2 ^ 32 ∧ r.2.1 < 2 ^ 8 ∧ r.2.2 < 2 ^ 32

/-- In-range condition on a packed medium record. -/
def MediumInRange (r : Nat × Nat) : Prop :=
  r.1 < 2 ^ 32 ∧ r.2 < 2 ^ 32

/-! ## Folder-name parsing (converter.py lines 177-207)

`parse_folder_name` tries `re.match(r"UNIT_(\d+)_RUN_(\d+)", name, re.IGNORECASE)`,
then `re.match(r"RUN_(\d+)", name, re.IGNORECASE)`, then falls back to
`("unit_0001", name)`. `re.match` anchors at the start of the string only,
so trailing characters after the matched pattern are allowed and ignored.
Greedy `\d+` followed by the non-digit `_` (or by nothing) is maximal-munch,
so the embedding uses `takeWhile isDigit`. `re.IGNORECASE` on the ASCII
pattern letters accepts each letter in either case. -/

def digitChar : Nat → Char
  | 0 => '0' | 1 => '1' | 2 => '2' | 3 => '3' | 4 => '4'
  | 5 => '5' | 6 => '6' | 7 => '7' | 8 => '8' | 9 => '9'
  | _ => '*'

/-- Numeric value of an ASCII digit character. -/
def digitVal (c : Char) : Nat := c.toNat - 48

/-- Value of a nonempty ASCII-digit string, as Python `int()` computes it
on a regex `\d+` group (leading zeros allowed). -/
def valOfDigits (cs : List Char) : Nat := cs.foldl (fun a c => 10 * a + digitVal c) 0

/-- Decimal digit characters of `n`, most significant first (fuel-driven so
that it reduces definitionally). -/
def natCharsAux (fuel : Nat) (n : Nat) : List Char :=
  match fuel with
  | 0 => []
  | fuel + 1 =>
    if n < 10 then [digitChar n]
    else natCharsAux fuel (n / 10) ++ [digitChar (n % 10)]

def natChars (n : Nat) : List Char := natCharsAux (n + 1) n

/-- Formatting of `n` as a decimal numeral left-padded with zeros to width
`w`, as the Python format specifier `"%0wd"` does. -/
def fmtPad (w n : Nat) : List Char := List.replicate (w - (natChars n).length) '0' ++ natChars n

/-- Consume the case-insensitive literal `UNIT_` at the start of the
string, as the first five pattern characters of `UNIT_(\d+)_RUN_(\d+)` do
under `re.IGNORECASE`. -/
def stripUnitLit : List Char → Option (List Char)
  | c0 :: c1 :: c2 :: c3 :: c4 :: rest =>
    if (c0 = 'U' ∨ c0 = 'u') ∧ (c1 = 'N' ∨ c1 = 'n') ∧ (c2 = 'I' ∨ c2 = 'i') ∧
        (c3 = 'T' ∨ c3 = 't') ∧ c4 = '_' then some rest else none
  | _ => none

/-- Consume the case-insensitive literal `_RUN_` (the middle of the
`UNIT_(\d+)_RUN_(\d+)` pattern). -/
def stripURunLit : List Char → Option (List Char)
  | c0 :: c1 :: c2 :: c3 :: c4 :: rest =>
    if c0 = '_' ∧ (c1 = 'R' ∨ c1 = 'r') ∧ (c2 = 'U' ∨ c2 = 'u') ∧
        (c3 = 'N' ∨ c3 = 'n') ∧ c4 = '_' then some rest else none
  | _ => none

/-- Consume the case-insensitive literal `RUN_` at the start of the string
(the start of the `RUN_(\d+)` pattern). -/
def stripRunLit : List Char → Option (List Char)
  | c0 :: c1 :: c2 :: c3 :: rest =>
    if (c0 = 'R' ∨ c0 = 'r') ∧ (c1 = 'U' ∨ c1 = 'u') ∧ (c2 = 'N' ∨ c2 = 'n') ∧
        c3 = '_' then some rest else none
  | _ => none

/-- Embedding of `re.match(r"UNIT_(\d+)_RUN_(\d+)", s, re.IGNORECASE)`,
returning the two integer groups on success. -/
def matchUnitRun (s : List Char) : Option (Nat × Nat) :=
  match stripUnitLit s with
  | none => none
  | some r1 =>
    let d1 := r1.takeWhile Char.isDigit
    if d1.isEmpty then none
    else
      match stripURunLit (r1.dropWhile Char.isDigit) with
      | none => none
      | some r2 =>
        let d2 := r2.takeWhile Char.isDigit
        if d2.isEmpty then none else some (valOfDigits d1, valOfDigits d2)

/-- Embedding of `re.match(r"RUN_(\d+)", s, re.IGNORECASE)`, returning the
integer group on success. -/
def matchRunOnly (s : List Char) : Option Nat :=
  match stripRunLit s with
  | none => none
  | some r =>
    let d := r.takeWhile Char.isDigit
    if d.isEmpty then none else some (valOfDigits d)

/-- Embedding of `parse_folder_name` (converter.py lines 177-207): try the
`UNIT_<n>_RUN_<m>` pattern, then the `RUN_<m>` pattern, then fall back to
`("unit_0001", folder_name)` verbatim. -/
def parse_folder_name (s : List Char) : List Char × List Char :=
  match matchUnitRun s with
  | some (n, m) => ("unit_".data ++ fmtPad 4 n, "RUN_".data ++ fmtPad 3 m)
  | none =>
    match matchRunOnly s with
    | some m => ("unit_0001".data, "RUN_".data ++ fmtPad 3 m)
    | none => ("unit_0001".data, s)

/-- ASCII uppercase folding of one character, as Python `str.upper()` acts
on ASCII strings. -/
def pyUpperChar (c : Char) : Char :=
  if 'a' ≤ c ∧ c ≤ 'z' then Char.ofNat (c.toNat - 32) else c

/-- Name of the per-run output directory created by `convert_run`
(converter.py line 312): `f"{unit_id.upper()}_{run_id}"` with the unit and
run ids derived from the run directory name. -/
def output_dir_name (s : List Char) : List Char :=
  ((parse_folder_name s).1.map pyUpperChar) ++ '_' :: (parse_folder_name s).2

/-! ### Declarative characterization of the folder-name patterns -/

/-- A five-character block matching the pattern literal `UNIT_`
case-insensitively. -/
def UnitLit (u : List Char) : Prop :=
  ∃ c0 c1 c2 c3, u = [c0, c1, c2, c3, '_'] ∧ (c0 = 'U' ∨ c0 = 'u') ∧
    (c1 = 'N' ∨ c1 = 'n') ∧ (c2 = 'I' ∨ c2 = 'i') ∧ (c3 = 'T' ∨ c3 = 't')

/-- A five-character block matching the pattern literal `_RUN_`
case-insensitively. -/
def URunLit (v : List Char) : Prop :=
  ∃ c1 c2 c3, v = ['_', c1, c2, c3, '_'] ∧ (c1 = 'R' ∨ c1 = 'r') ∧
    (c2 = 'U' ∨ c2 = 'u') ∧ (c3 = 'N' ∨ c3 = 'n')

/-- A four-character block matching the pattern literal `RUN_`
case-insensitively. -/
def RunLit (u : List Char) : Prop :=
  ∃ c1 c2 c3, u = [c1, c2, c3, '_'] ∧ (c1 = 'R' ∨ c1 = 'r') ∧
    (c2 = 'U' ∨ c2 = 'u') ∧ (c3 = 'N' ∨ c3 = 'n')

/-- The string has a prefix of the form `UNIT_<digits>_RUN_<digits>`
(case-insensitive, both digit runs maximal), with group values `n` and
`m`. This is exactly when `re.match(r"UNIT_(\d+)_RUN_(\d+)", ·,
re.IGNORECASE)` succeeds with those integer groups. -/
def UnitRunForm (s : List Char) (n m : Nat) : Prop :=
  ∃ u d1 v d2 rest, s = u ++ d1 ++ v ++ d2 ++ rest ∧ UnitLit u ∧ URunLit v ∧
    d1 ≠ [] ∧ (∀ c ∈ d1, c.isDigit) ∧ d2 ≠ [] ∧ (∀ c ∈ d2, c.isDigit) ∧
    (∀ c ∈ rest.take 1, c.isDigit = false) ∧
    n = valOfDigits d1 ∧ m = valOfDigits d2

/-- The string has a prefix of the form `RUN_<digits>` (case-insensitive,
the digit run maximal), with group value `m`. -/
def RunOnlyForm (s : List Char) (m : Nat) : Prop :=
  ∃ u d rest, s = u ++ d ++ rest ∧ RunLit u ∧
    d ≠ [] ∧ (∀ c ∈ d, c.isDigit) ∧
    (∀ c ∈ rest.take 1, c.isDigit = false) ∧ m = valOfDigits d

/-! ### Run identity (C5) -/

/-- A run directory name already in the canonical shape
`UNIT_<4-digit n>_RUN_<3-digit m>` that `convert_run`-derived output
directories use. -/
def canonRunDirName (n m : Nat) : List Char :=
  "UNIT_".data ++ fmtPad 4 n ++ "_RUN_".data ++ fmtPad 3 m

/-! ## Sensor demultiplexer (converter.py lines 40-56 and 127-156) -/

/-- The canonical sensor id-to-name table `SENSOR_ID_TO_NAME`. -/
def SENSOR_ID_TO_NAME : Nat → Option String
  | 0 => some "imu"
  | 1 => some "vibration"
  | 2 => some "current"
  | 3 => some "pressure"
  | 4 => some "temperature"
  | _ => none

/-- One iteration of the record loop of `split_by_sensor` (lines 144-148):
look the record's sensor id up in the canonical table; if its name is a key
of the accumulator dictionary, append `(timestamp_ms, value)` to that
key's list; otherwise leave the accumulator unchanged. -/
def splitStep (acc : List (String × List (Nat × Nat))) (r : Nat × Nat × Nat) :
    List (String × List (Nat × Nat)) :=
  match SENSOR_ID_TO_NAME r.2.1 with
  | some nm =>
    if acc.any (fun p => p.1 = nm) then
      acc.map (fun p => if p.1 = nm then (p.1, p.2 ++ [(r.1, r.2.2)]) else p)
    else acc
  | none => acc

/-- The dict comprehension on lines 140-142: one empty-list entry per
expected sensor id, keyed by canonical name, in first-occurrence order; a
sensor id absent from the canonical table raises `KeyError`, embedded as
`none`. -/
def initSensorMap (sensorIds : List Nat) : Option (List (String × List (Nat × Nat))) :=
  sensorIds.foldlM
    (fun acc sid =>
      (SENSOR_ID_TO_NAME sid).map (fun nm =>
        if acc.any (fun p => p.1 = nm) then acc else acc ++ [(nm, [])]))
    []

/-- Embedding of `split_by_sensor` (converter.py lines 127-156): build the
per-name empty lists, run the record loop, and keep only the nonempty
series (lines 150-154 build a DataFrame only for truthy lists); a
DataFrame is represented by its list of `(timestamp_ms, value)` rows. -/
def split_by_sensor (records : List (Nat × Nat × Nat)) (sensorIds : List Nat) :
    Option (List (String × List (Nat × Nat))) :=
  (initSensorMap sensorIds).map (fun init =>
    (records.foldl splitStep init).filter (fun p => !p.2.isEmpty))

/-- Specification-side series of one sensor name: the stable filter of the
input records hitting that name, in input order. -/
def seriesOf (nm : String) (records : List (Nat × Nat × Nat)) : List (Nat × Nat) :=
  records.filterMap (fun r =>
    if SENSOR_ID_TO_NAME r.2.1 = some nm then some (r.1, r.2.2) else none)

/-- Specification-side membership of a sensor id in the canonical table
restricted to one tier's expected ids: the id resolves to a name carried by
one of the tier's expected ids. -/
def inTierTable (sensorIds : List Nat) (sid : Nat) : Bool :=
  match SENSOR_ID_TO_NAME sid with
  | some nm => sensorIds.any (fun s => SENSOR_ID_TO_NAME s = some nm)
  | none => false

/-! ## Run directory state and metadata (models.py, converter.py lines 159-174) -/

/-- Embedding of the parsed `FirmwareMetadata` content that the converter
reads: `startTimeParsed` is `some t` when Python `int(meta.start_time)`
succeeds with value `t` and `none` when it raises (converter.py lines
234-238); `durationMs` is `statistics.duration_ms`; `totalSamples` the
`statistics.total_samples` mapping. -/
structure FirmwareMeta where
  runId : String
  startTimeParsed : Option Int
  durationMs : Int
  totalSamples : List (String × Nat)
deriving DecidableEq

/-- A `meta.json` file on disk: either it parses into firmware metadata or
`load_firmware_metadata` raises on it. -/
inductive MetaFile where
  | parsed (m : FirmwareMeta)
  | unparseable
deriving DecidableEq

/-- Filesystem state of one run directory: content of each tier file when
present, and the state of `meta.json`. -/
structure RunDirState where
  fast : Option (List Nat)
  medium : Option (List Nat)
  slow : Option (List Nat)
  meta : Option MetaFile
deriving DecidableEq

/-- The per-file entry of `validate_run`'s `results["files"]`. -/
inductive FileReport where
  | found (sizeBytes expectedRecords : Nat) (hasPartialRecord : Bool)
  | notFound
deriving DecidableEq

/-- Warnings appended by `validate_run`, by kind. -/
inductive WarnTag where
  | sizeNotDivisible (fname : String)
  | metaNotFound
deriving DecidableEq

/-- Errors appended by `validate_run`, by kind. -/
inductive ErrTag where
  | metaParseFailed
deriving DecidableEq

/-- The `results["metadata"]` entry of `validate_run`: present with parsed
fields, or present recording absence; the key is absent altogether
(`Option.none` outside) when `meta.json` exists but fails to parse. -/
inductive MetaReport where
  | found (runId : String) (durationMs : Int) (totalSamples : List (String × Nat))
  | notFound
deriving DecidableEq

/-- The dictionary returned by `validate_run`. -/
structure ValidationResult where
  valid : Bool
  errors : List ErrTag
  warnings : List WarnTag
  files : List (String × FileReport)
  metadata : Option MetaReport
deriving DecidableEq

/-- Per-tier-file entry of `results["files"]` (converter.py lines 466-489):
size, `file_size // record_size`, and whether `file_size % record_size`
is nonzero. -/
def tierFileReport (content : Option (List Nat)) (recSize : Nat) : FileReport :=
  match content with
  | some bs => FileReport.found bs.length (bs.length / recSize) (bs.length % recSize > 0)
  | none => FileReport.notFound

/-- Warning emitted for one tier file when its size is not a whole number
of records (converter.py lines 479-482). -/
def tierFileWarnings (content : Option (List Nat)) (recSize : Nat) (fname : String) :
    List WarnTag :=
  match content with
  | some bs => if bs.length % recSize > 0 then [WarnTag.sizeNotDivisible fname] else []
  | none => []

/-- Embedding of `validate_run` (converter.py lines 439-511): report the
three tier files with a warning per non-divisible size, then check
`meta.json`: missing adds a warning, present-but-unparseable adds the only
possible error and clears `valid`. -/
def validate_run (d : RunDirState) : ValidationResult :=
  let files := [("fast_data.bin", tierFileReport d.fast 12),
                ("medium_data.bin", tierFileReport d.medium 8),
                ("slow_data.bin", tierFileReport d.slow 12)]
  let fileWarnings := tierFileWarnings d.fast 12 "fast_data.bin"
    ++ tierFileWarnings d.medium 8 "medium_data.bin"
    ++ tierFileWarnings d.slow 12 "slow_data.bin"
  match d.meta with
  | some (MetaFile.parsed m) =>
    { valid := true, errors := [], warnings := fileWarnings, files := files,
      metadata := some (MetaReport.found m.runId m.durationMs m.totalSamples) }
  | some MetaFile.unparseable =>
    { valid := false, errors := [ErrTag.metaParseFailed], warnings := fileWarnings,
      files := files, metadata := none }
  | none =>
    { valid := true, errors := [], warnings := fileWarnings ++ [WarnTag.metaNotFound],
      files := files, metadata := some MetaReport.notFound }

/-! ## Session metadata and single-run conversion (converter.py lines 210-369) -/

/-- Health label enumeration (models.py lines 28-33). -/
inductive HealthLabel where
  | unknown
  | healthy
  | degraded
  | faulty
deriving DecidableEq

/-- Canonical per-sensor rate and unit (`SENSOR_NAME_TO_INFO`,
converter.py lines 50-56); only the fields the converter reads. -/
structure SensorMeta where
  id : Nat
  rate : Nat
  unit : String
deriving DecidableEq

def SENSOR_NAME_TO_INFO : String → Option SensorMeta :=
  fun nm =>
    if nm = "imu" then some ⟨0, 1000, "m/s^2"⟩
    else if nm = "vibration" then some ⟨1, 1000, "binary"⟩
    else if nm = "current" then some ⟨2, 200, "A"⟩
    else if nm = "pressure" then some ⟨3, 50, "kPa"⟩
    else if nm = "temperature" then some ⟨4, 50, "C"⟩
    else none

/-- Session start time: from the descriptor's Unix timestamp, or the wall
clock at reconciliation (`datetime.now`, passed in explicitly). -/
inductive StartTime where
  | fromUnix (seconds : Int)
  | wallClockNow (now : Int)
deriving DecidableEq

/-- One `SessionRecord` as the converter constructs it (models.py lines
94-115, converter.py lines 244-258); the duration is carried in
milliseconds (the CSV row divides it by 1000). -/
structure Session where
  sessionId : List Char
  unitId : List Char
  sensorName : String
  fileName : String
  fileFormat : String
  startTimeUtc : StartTime
  durationMs : Int
  samplingRateHz : Nat
  units : String
  healthLabel : HealthLabel
deriving DecidableEq

/-- Embedding of `generate_session_metadata` (converter.py lines 210-260):
derive start time and duration from the descriptor when available (with
the current-time fallback when `int(start_time)` fails or the descriptor
is absent), then emit one record per output file, with rate and units
defaulting to `0` and `"unknown"` for names outside the canonical table. -/
def generate_session_metadata (fm : Option FirmwareMeta) (unitId runId : List Char)
    (outputFiles : List String) (hl : HealthLabel) (now : Int) : List Session :=
  let st : StartTime × Int :=
    match fm with
    | some m =>
      (match m.startTimeParsed with
       | some t => StartTime.fromUnix t
       | none => StartTime.wallClockNow now,
       m.durationMs)
    | none => (StartTime.wallClockNow now, 0)
  outputFiles.map (fun nm =>
    { sessionId := runId, unitId := unitId, sensorName := nm,
      fileName := nm ++ ".csv", fileFormat := "csv",
      startTimeUtc := st.1, durationMs := st.2,
      samplingRateHz := (match SENSOR_NAME_TO_INFO nm with | some i => i.rate | none => 0),
      units := (match SENSOR_NAME_TO_INFO nm with | some i => i.unit | none => "unknown"),
      healthLabel := hl })

/-- Embedding of `convert_run` (converter.py lines 266-369): parse the
folder name (a caller-supplied unit id overrides the parsed one), load the
descriptor if present (a parse failure is caught and conversion proceeds
without it), decode and demultiplex each tier file that exists, keep
nonempty series only, and return the output file names (one `{name}.csv`
per series) with one session record each. The expected-id lists `[0, 1]`
and `[3, 4]` are in the canonical table, so the `KeyError` branch of
`split_by_sensor` cannot fire; `getD []` discharges the `Option`. -/
def convert_run (d : RunDirState) (dirName : List Char) (unitIdOverride : Option (List Char))
    (hl : HealthLabel) (now : Int) : List String × List Session :=
  let pf := parse_folder_name dirName
  let unitId := unitIdOverride.getD pf.1
  let runId := pf.2
  let fm : Option FirmwareMeta :=
    match d.meta with
    | some (MetaFile.parsed m) => some m
    | _ => none
  let fastDfs : List (String × List (Nat × Nat)) :=
    match d.fast with
    | some bs => (split_by_sensor (parse_fast_data bs) [0, 1]).getD []
    | none => []
  let medDfs : List (String × List (Nat × Nat)) :=
    match d.medium with
    | some bs =>
      let rs := parse_medium_data bs
      if rs.isEmpty then [] else [("current", rs)]
    | none => []
  let slowDfs : List (String × List (Nat × Nat)) :=
    match d.slow with
    | some bs => (split_by_sensor (parse_slow_data bs) [3, 4]).getD []
    | none => []
  let allDfs := fastDfs ++ medDfs ++ slowDfs
  let outputFiles := allDfs.map (·.1)
  (outputFiles, generate_session_metadata fm unitId runId outputFiles hl now)

/-- Failure modes of the `convert` CLI entry point before `convert_run`
runs: `typer.Argument(..., exists=True)` rejects a missing run directory
(cli.py lines 34-40). -/
inductive CliError where
  | runDirNotFound
deriving DecidableEq

/-- Embedding of the single-run `convert` CLI command (cli.py lines
32-95): the run directory argument is checked for existence, then
`convert_run` is invoked; `convert_run` itself raises nothing in this
model. -/
def cli_convert (runDir : Option RunDirState) (dirName : List Char)
    (unitIdOverride : Option (List Char)) (hl : HealthLabel) (now : Int) :
    Except CliError (List String × List Session) :=
  match runDir with
  | none => Except.error CliError.runDirNotFound
  | some d => Except.ok (convert_run d dirName unitIdOverride hl now)

/-- The run directory that exists but contains none of the three tier
files and no firmware descriptor. -/
def emptyRunDir : RunDirState := ⟨none, none, none, none⟩

/-! ## Batch conversion and the combined session table
(converter.py lines 372-436, cli.py lines 76-91) -/

/-- Embedding of the conversion loop of `convert_all_runs` (lines
412-423): each run directory's `convert_run` outcome is either its session
records or a raised exception; a raising run is reported and skipped, the
accumulated list keeps growing. -/
def convert_all_runs (runs : List (Except String (List Session))) : List Session :=
  runs.foldl
    (fun acc r => match r with | Except.ok s => acc ++ s | Except.error _ => acc)
    []

/-- Embedding of the combined-session-table write of `convert_all_runs`
(lines 425-434): nothing is written when no sessions were produced;
otherwise the file is written from the batch's sessions alone, replacing
any previous content. -/
def write_sessions_batch {α : Type} (existing : Option (List α)) (newRows : List α) :
    Option (List α) :=
  if newRows.isEmpty then existing else some newRows

/-- Embedding of the session-table write of the single-run `convert` CLI
command (cli.py lines 76-88): nothing is written when no sessions were
produced; otherwise existing rows are read back and the new rows appended
after them. -/
def write_sessions_single {α : Type} (existing : Option (List α)) (newRows : List α) :
    Option (List α) :=
  if newRows.isEmpty then existing else some (existing.getD [] ++ newRows)

/-- The session record used in concrete batch examples. -/
def demoSession : Session :=
  { sessionId := "RUN_001".data, unitId := "unit_0001".data, sensorName := "imu",
    fileName := "imu.csv", fileFormat := "csv", startTimeUtc := StartTime.fromUnix 0,
    durationMs := 0, samplingRateHz := 1000, units := "m/s^2",
    healthLabel := HealthLabel.unknown }

/-! ## ISO-8601 rendering of session start times
(models.py line 125: `self.start_time_utc.isoformat() + "Z"`) -/

/-- Proleptic Gregorian civil date from a day count since 1970-01-01
(the conversion `datetime.fromtimestamp(·, tz=timezone.utc)` performs),
returned as (year, month, day). -/
def civilFromDays (days : Nat) : Nat × Nat × Nat :=
  let z := days + 719468
  let era := z / 146097
  let doe := z % 146097
  let yoe := (doe - doe / 1460 + doe / 36524 - doe / 146096) / 365
  let y := yoe + era * 400
  let doy := doe - (365 * yoe + yoe / 4 - yoe / 100)
  let mp := (5 * doy + 2) / 153
  let d := doy - (153 * mp + 2) / 5 + 1
  let m := if mp < 10 then mp + 3 else mp - 9
  (if m ≤ 2 then y + 1 else y, m, d)

/-- The string `datetime.fromtimestamp(ts, tz=timezone.utc).isoformat()`
produces for a whole-second Unix timestamp `ts ≥ 0`: the civil date and
time joined by `T` (the zero microsecond field is omitted by `isoformat`),
followed by the UTC offset suffix `+00:00` that every timezone-aware
datetime renders. -/
def pyIsoformatUTC (ts : Nat) : List Char :=
  let ymd := civilFromDays (ts / 86400)
  let secs := ts % 86400
  fmtPad 4 ymd.1 ++ '-' :: fmtPad 2 ymd.2.1 ++ '-' :: fmtPad 2 ymd.2.2
    ++ 'T' :: fmtPad 2 (secs / 3600) ++ ':' :: fmtPad 2 (secs % 3600 / 60)
    ++ ':' :: fmtPad 2 (secs % 60) ++ "+00:00".data

/-- The `start_time_utc` cell of one `sessions.csv` row as
`SessionRecord.to_csv_row` renders it (models.py line 125): the aware
datetime's `isoformat()` with `"Z"` appended. -/
def csv_row_start_time_utc (ts : Nat) : List Char :=
  pyIsoformatUTC ts ++ ['Z']

/-- Consume exactly `k` ASCII digits. -/
def expectDigits : Nat → List Char → Option (List Char)
  | 0, s => some s
  | _ + 1, [] => none
  | k + 1, c :: s => if c.isDigit then expectDigits k s else none

/-- Consume one expected character. -/
def expectChar (c : Char) : List Char → Option (List Char)
  | [] => none
  | x :: s => if x = c then some s else none

/-- Accept exactly one ISO-8601 UTC designator closing the string: either
`Z` or a numeric offset `±hh:mm`. -/
def isoZoneTail (s : List Char) : Bool :=
  match s with
  | ['Z'] => true
  | c :: rest =>
    if c = '+' ∨ c = '-' then
      match ((expectDigits 2 rest).bind (expectChar ':')).bind (expectDigits 2) with
      | some [] => true
      | _ => false
    else false
  | [] => false

/-- Skip an optional fractional-seconds part `.d+`. -/
def isoFraction (s : List Char) : List Char :=
  match s with
  | '.' :: rest =>
    if (rest.takeWhile Char.isDigit).isEmpty then s else rest.dropWhile Char.isDigit
  | _ => s

/-- Checker for the ISO-8601 extended UTC timestamp grammar
`YYYY-MM-DDThh:mm:ss[.f+](Z|±hh:mm)`: after the seconds (and optional
fraction) exactly one zone designator must close the string — `Z` and a
numeric offset are mutually exclusive. -/
def isValidISO8601UTC (s : List Char) : Bool :=
  match (((((((((expectDigits 4 s).bind (expectChar '-')).bind (expectDigits 2)).bind
      (expectChar '-')).bind (expectDigits 2)).bind (expectChar 'T')).bind
      (expectDigits 2)).bind (expectChar ':')).bind (expectDigits 2)).bind
      (expectChar ':') |>.bind (expectDigits 2) with
  | some rest => isoZoneTail (isoFraction rest)
  | none => false

/-! ## Theorems -/

/-! ### Decoder lemmas -/

theorem toLE4_length (n : Nat) : (toLE4 n).length = 4 := by
  simp [toLE4]

theorem packFast_length (r pad : Nat × Nat × Nat) : (packFast r pad).length = 12 := by
  simp [packFast, toLE4]

theorem packMedium_length (r : Nat × Nat) : (packMedium r).length = 8 := by
  simp [packMedium, toLE4]

theorem fromLE4_toLE4 (n : Nat) (h : n < 2 ^ 32) :
    fromLE4 (n % 256) (n / 256 % 256) (n / 65536 % 256) (n / 16777216 % 256) = n := by
  simp only [fromLE4]
  omega

theorem unpackFast_packFast (r pad : Nat × Nat × Nat)
    (h1 : r.1 < 2 ^ 32) (h2 : r.2.1 < 2 ^ 8) (h3 : r.2.2 < 2 ^ 32) :
    unpackFast (packFast r pad) = r := by
  obtain ⟨t, i, v⟩ := r
  simp only [packFast, toLE4, List.cons_append, List.nil_append]
  simp only [unpackFast, Prod.mk.injEq]
  simp only [fromLE4] at *
  refine ⟨?_, ?_, ?_⟩ <;> first | trivial | omega

theorem unpackMedium_packMedium (r : Nat × Nat)
    (h1 : r.1 < 2 ^ 32) (h3 : r.2 < 2 ^ 32) :
    unpackMedium (packMedium r) = r := by
  obtain ⟨t, v⟩ := r
  simp only [packMedium, toLE4, List.cons_append, List.nil_append]
  simp only [unpackMedium, Prod.mk.injEq]
  simp only [fromLE4] at *
  refine ⟨?_, ?_⟩ <;> first | trivial | omega

theorem parse_fast_data_nil : parse_fast_data [] = [] := by
  rw [parse_fast_data]
  simp

theorem parse_medium_data_nil : parse_medium_data [] = [] := by
  rw [parse_medium_data]
  simp

theorem parse_slow_data_nil : parse_slow_data [] = [] := by
  rw [parse_slow_data]
  simp

theorem parse_fast_data_short (bs : List Nat) (h : bs.length < 12) :
    parse_fast_data bs = [] := by
  rw [parse_fast_data]
  simp [Nat.not_le.mpr h]

theorem parse_medium_data_short (bs : List Nat) (h : bs.length < 8) :
    parse_medium_data bs = [] := by
  rw [parse_medium_data]
  simp [Nat.not_le.mpr h]

theorem parse_slow_data_short (bs : List Nat) (h : bs.length < 12) :
    parse_slow_data bs = [] := by
  rw [parse_slow_data]
  simp [Nat.not_le.mpr h]

theorem parse_fast_data_chunk (chunk rest : List Nat) (h : chunk.length = 12) :
    parse_fast_data (chunk ++ rest) = unpackFast chunk :: parse_fast_data rest := by
  rw [parse_fast_data]
  rw [List.take_left' h, List.drop_left' h]
  simp [h]

theorem parse_medium_data_chunk (chunk rest : List Nat) (h : chunk.length = 8) :
    parse_medium_data (chunk ++ rest) = unpackMedium chunk :: parse_medium_data rest := by
  rw [parse_medium_data]
  rw [List.take_left' h, List.drop_left' h]
  simp [h]

theorem parse_slow_data_chunk (chunk rest : List Nat) (h : chunk.length = 12) :
    parse_slow_data (chunk ++ rest) = unpackFast chunk :: parse_slow_data rest := by
  rw [parse_slow_data]
  rw [List.take_left' h, List.drop_left' h]
  simp [h]

theorem parse_fast_data_roundtrip
    (rs : List ((Nat × Nat × Nat) × (Nat × Nat × Nat)))
    (h : ∀ p ∈ rs, FastInRange p.1) :
    parse_fast_data (rs.map (fun p => packFast p.1 p.2)).flatten = rs.map (·.1) := by
  induction rs with
  | nil => simpa using parse_fast_data_nil
  | cons p t ih =>
    simp only [List.map_cons, List.flatten_cons]
    rw [parse_fast_data_chunk _ _ (packFast_length p.1 p.2)]
    have hp := h p (by simp)
    rw [unpackFast_packFast p.1 p.2 hp.1 hp.2.1 hp.2.2]
    rw [ih (fun q hq => h q (by simp [hq]))]

theorem parse_slow_data_roundtrip
    (rs : List ((Nat × Nat × Nat) × (Nat × Nat × Nat)))
    (h : ∀ p ∈ rs, FastInRange p.1) :
    parse_slow_data (rs.map (fun p => packFast p.1 p.2)).flatten = rs.map (·.1) := by
  induction rs with
  | nil => simpa using parse_slow_data_nil
  | cons p t ih =>
    simp only [List.map_cons, List.flatten_cons]
    rw [parse_slow_data_chunk _ _ (packFast_length p.1 p.2)]
    have hp := h p (by simp)
    rw [unpackFast_packFast p.1 p.2 hp.1 hp.2.1 hp.2.2]
    rw [ih (fun q hq => h q (by simp [hq]))]

theorem parse_medium_data_roundtrip
    (rs : List (Nat × Nat))
    (h : ∀ r ∈ rs, MediumInRange r) :
    parse_medium_data (rs.map packMedium).flatten = rs := by
  induction rs with
  | nil => simpa using parse_medium_data_nil
  | cons r t ih =>
    simp only [List.map_cons, List.flatten_cons]
    rw [parse_medium_data_chunk _ _ (packMedium_length r)]
    have hr := h r (by simp)
    rw [unpackMedium_packMedium r hr.1 hr.2]
    rw [ih (fun q hq => h q (by simp [hq]))]

/-- C1. Round-trip decode for every tier: packing any sequence of in-range
records per the tier's little-endian schema (12-byte fast/slow records
with three arbitrary padding bytes, 8-byte medium records) and decoding
the resulting buffer with the corresponding parser yields exactly the
original tuples. Integer fields come back byte-identical; float values are
represented by their 32-bit IEEE-754 bit patterns, so recovering the bit
pattern exactly is single-precision value equality. The padding bytes
`p.2` are universally quantified and absent from the right-hand sides:
they never affect the result. -/
theorem round_trip_decode
    (fastRecs slowRecs : List ((Nat × Nat × Nat) × (Nat × Nat × Nat)))
    (medRecs : List (Nat × Nat))
    (hf : ∀ p ∈ fastRecs, FastInRange p.1)
    (hs : ∀ p ∈ slowRecs, FastInRange p.1)
    (hm : ∀ r ∈ medRecs, MediumInRange r) :
    parse_fast_data (fastRecs.map (fun p => packFast p.1 p.2)).flatten = fastRecs.map (·.1) ∧
    parse_slow_data (slowRecs.map (fun p => packFast p.1 p.2)).flatten = slowRecs.map (·.1) ∧
    parse_medium_data (medRecs.map packMedium).flatten = medRecs ∧
    (parse_fast_data (fastRecs.map (fun p => packFast p.1 p.2)).flatten).length
      = fastRecs.length ∧
    (parse_slow_data (slowRecs.map (fun p => packFast p.1 p.2)).flatten).length
      = slowRecs.length ∧
    (parse_medium_data (medRecs.map packMedium).flatten).length = medRecs.length := by
  refine ⟨parse_fast_data_roundtrip fastRecs hf, parse_slow_data_roundtrip slowRecs hs,
    parse_medium_data_roundtrip medRecs hm, ?_, ?_, ?_⟩
  · rw [parse_fast_data_roundtrip fastRecs hf]; simp
  · rw [parse_slow_data_roundtrip slowRecs hs]; simp
  · rw [parse_medium_data_roundtrip medRecs hm]

/-- C1 witness: the round trip evaluated on one concrete record per tier,
with nonzero padding bytes. -/
theorem round_trip_decode_witness :
    parse_fast_data ([(((5, 1, 1065353216), (7, 8, 9)) :
        (Nat × Nat × Nat) × (Nat × Nat × Nat))].map (fun p => packFast p.1 p.2)).flatten
      = [(5, 1, 1065353216)] ∧
    parse_slow_data ([(((0, 4, 42), (255, 255, 255)) :
        (Nat × Nat × Nat) × (Nat × Nat × Nat))].map (fun p => packFast p.1 p.2)).flatten
      = [(0, 4, 42)] ∧
    parse_medium_data ([((4294967295, 3) : Nat × Nat)].map packMedium).flatten
      = [(4294967295, 3)] ∧
    ([(((5, 1, 1065353216), (7, 8, 9)) :
        (Nat × Nat × Nat) × (Nat × Nat × Nat))].map (fun p => packFast p.1 p.2)).flatten.length
      = 12 := by
  have h := round_trip_decode
    [(((5, 1, 1065353216), (7, 8, 9)) : (Nat × Nat × Nat) × (Nat × Nat × Nat))]
    [(((0, 4, 42), (255, 255, 255)) : (Nat × Nat × Nat) × (Nat × Nat × Nat))]
    [((4294967295, 3) : Nat × Nat)]
    (by intro p hp; simp at hp; subst hp; norm_num [FastInRange])
    (by intro p hp; simp at hp; subst hp; norm_num [FastInRange])
    (by intro r hr; simp at hr; subst hr; norm_num [MediumInRange])
  exact ⟨h.1, h.2.1, h.2.2.1, by decide⟩

/-! ### Truncation tolerance -/

theorem parse_fast_data_append_aligned :
    ∀ (bs : List Nat), ∀ sfx : List Nat, bs.length % 12 = 0 → sfx.length < 12 →
      parse_fast_data (bs ++ sfx) = parse_fast_data bs := by
  intro bs
  induction bs using parse_fast_data.induct with
  | case1 bs h ih =>
    intro sfx hb hs
    have htake : (bs.take 12).length = 12 := by
      simp only [List.length_take]
      omega
    have hsplit : bs.take 12 ++ bs.drop 12 = bs := List.take_append_drop 12 bs
    calc parse_fast_data (bs ++ sfx)
        = parse_fast_data (bs.take 12 ++ (bs.drop 12 ++ sfx)) := by
          rw [← List.append_assoc, hsplit]
      _ = unpackFast (bs.take 12) :: parse_fast_data (bs.drop 12 ++ sfx) :=
          parse_fast_data_chunk _ _ htake
      _ = unpackFast (bs.take 12) :: parse_fast_data (bs.drop 12) := by
          rw [ih sfx (by simp only [List.length_drop]; omega) hs]
      _ = parse_fast_data (bs.take 12 ++ bs.drop 12) :=
          (parse_fast_data_chunk _ _ htake).symm
      _ = parse_fast_data bs := by rw [hsplit]
  | case2 bs h =>
    intro sfx hb hs
    have hnil : bs = [] := List.eq_nil_of_length_eq_zero (by omega)
    subst hnil
    simp only [List.nil_append]
    rw [parse_fast_data_short sfx (by omega), parse_fast_data_nil]

theorem parse_slow_data_append_aligned :
    ∀ (bs : List Nat), ∀ sfx : List Nat, bs.length % 12 = 0 → sfx.length < 12 →
      parse_slow_data (bs ++ sfx) = parse_slow_data bs := by
  intro bs
  induction bs using parse_slow_data.induct with
  | case1 bs h ih =>
    intro sfx hb hs
    have htake : (bs.take 12).length = 12 := by
      simp only [List.length_take]
      omega
    have hsplit : bs.take 12 ++ bs.drop 12 = bs := List.take_append_drop 12 bs
    calc parse_slow_data (bs ++ sfx)
        = parse_slow_data (bs.take 12 ++ (bs.drop 12 ++ sfx)) := by
          rw [← List.append_assoc, hsplit]
      _ = unpackFast (bs.take 12) :: parse_slow_data (bs.drop 12 ++ sfx) :=
          parse_slow_data_chunk _ _ htake
      _ = unpackFast (bs.take 12) :: parse_slow_data (bs.drop 12) := by
          rw [ih sfx (by simp only [List.length_drop]; omega) hs]
      _ = parse_slow_data (bs.take 12 ++ bs.drop 12) :=
          (parse_slow_data_chunk _ _ htake).symm
      _ = parse_slow_data bs := by rw [hsplit]
  | case2 bs h =>
    intro sfx hb hs
    have hnil : bs = [] := List.eq_nil_of_length_eq_zero (by omega)
    subst hnil
    simp only [List.nil_append]
    rw [parse_slow_data_short sfx (by omega), parse_slow_data_nil]

theorem parse_medium_data_append_aligned :
    ∀ (bs : List Nat), ∀ sfx : List Nat, bs.length % 8 = 0 → sfx.length < 8 →
      parse_medium_data (bs ++ sfx) = parse_medium_data bs := by
  intro bs
  induction bs using parse_medium_data.induct with
  | case1 bs h ih =>
    intro sfx hb hs
    have htake : (bs.take 8).length = 8 := by
      simp only [List.length_take]
      omega
    have hsplit : bs.take 8 ++ bs.drop 8 = bs := List.take_append_drop 8 bs
    calc parse_medium_data (bs ++ sfx)
        = parse_medium_data (bs.take 8 ++ (bs.drop 8 ++ sfx)) := by
          rw [← List.append_assoc, hsplit]
      _ = unpackMedium (bs.take 8) :: parse_medium_data (bs.drop 8 ++ sfx) :=
          parse_medium_data_chunk _ _ htake
      _ = unpackMedium (bs.take 8) :: parse_medium_data (bs.drop 8) := by
          rw [ih sfx (by simp only [List.length_drop]; omega) hs]
      _ = parse_medium_data (bs.take 8 ++ bs.drop 8) :=
          (parse_medium_data_chunk _ _ htake).symm
      _ = parse_medium_data bs := by rw [hsplit]
  | case2 bs h =>
    intro sfx hb hs
    have hnil : bs = [] := List.eq_nil_of_length_eq_zero (by omega)
    subst hnil
    simp only [List.nil_append]
    rw [parse_medium_data_short sfx (by omega), parse_medium_data_nil]

/-- C2. Truncation tolerance: each tier parser is a total function on byte
strings (it can never fail), a buffer made of whole records followed by a
partial trailing record of 1 to record_size-1 extra bytes decodes to
exactly the same record sequence as the buffer without the extra bytes
(the partial record is silently discarded, no error and no warning exists
at this layer), and the empty buffer decodes to the empty sequence. -/
theorem truncation_tolerance :
    (∀ bs sfx : List Nat, bs.length % 12 = 0 → 1 ≤ sfx.length → sfx.length < 12 →
      parse_fast_data (bs ++ sfx) = parse_fast_data bs) ∧
    (∀ bs sfx : List Nat, bs.length % 8 = 0 → 1 ≤ sfx.length → sfx.length < 8 →
      parse_medium_data (bs ++ sfx) = parse_medium_data bs) ∧
    (∀ bs sfx : List Nat, bs.length % 12 = 0 → 1 ≤ sfx.length → sfx.length < 12 →
      parse_slow_data (bs ++ sfx) = parse_slow_data bs) ∧
    parse_fast_data [] = [] ∧ parse_medium_data [] = [] ∧ parse_slow_data [] = [] := by
  exact ⟨fun bs sfx hb _ hs => parse_fast_data_append_aligned bs sfx hb hs,
    fun bs sfx hb _ hs => parse_medium_data_append_aligned bs sfx hb hs,
    fun bs sfx hb _ hs => parse_slow_data_append_aligned bs sfx hb hs,
    parse_fast_data_nil, parse_medium_data_nil, parse_slow_data_nil⟩

/-- C2 witness: one whole 12-byte (resp. 8-byte) record plus a 3-byte
partial tail decodes identically to the whole record alone. -/
theorem truncation_tolerance_witness :
    parse_fast_data (List.replicate 12 0 ++ [1, 2, 3]) = parse_fast_data (List.replicate 12 0) ∧
    parse_medium_data (List.replicate 8 0 ++ [1, 2, 3]) = parse_medium_data (List.replicate 8 0) ∧
    parse_slow_data (List.replicate 12 0 ++ [1, 2, 3]) = parse_slow_data (List.replicate 12 0) := by
  refine ⟨truncation_tolerance.1 _ _ (by decide) (by decide) (by decide),
    truncation_tolerance.2.1 _ _ (by decide) (by decide) (by decide),
    truncation_tolerance.2.2.1 _ _ (by decide) (by decide) (by decide)⟩

theorem stripUnitLit_append (u t : List Char) (h : UnitLit u) :
    stripUnitLit (u ++ t) = some t := by
  obtain ⟨c0, c1, c2, c3, rfl, h0, h1, h2, h3⟩ := h
  simp [stripUnitLit, h0, h1, h2, h3]

theorem stripUnitLit_eq_some (s t : List Char) (h : stripUnitLit s = some t) :
    ∃ u, UnitLit u ∧ s = u ++ t := by
  match s with
  | [] => simp [stripUnitLit] at h
  | [c0] => simp [stripUnitLit] at h
  | [c0, c1] => simp [stripUnitLit] at h
  | [c0, c1, c2] => simp [stripUnitLit] at h
  | [c0, c1, c2, c3] => simp [stripUnitLit] at h
  | c0 :: c1 :: c2 :: c3 :: c4 :: rest =>
    simp only [stripUnitLit] at h
    split at h
    · rename_i hc
      obtain ⟨h0, h1, h2, h3, h4⟩ := hc
      subst h4
      obtain rfl : rest = t := by injection h
      exact ⟨[c0, c1, c2, c3, '_'], ⟨c0, c1, c2, c3, rfl, h0, h1, h2, h3⟩, rfl⟩
    · exact absurd h (by simp)

theorem stripURunLit_append (v t : List Char) (h : URunLit v) :
    stripURunLit (v ++ t) = some t := by
  obtain ⟨c1, c2, c3, rfl, h1, h2, h3⟩ := h
  simp [stripURunLit, h1, h2, h3]

theorem stripURunLit_eq_some (s t : List Char) (h : stripURunLit s = some t) :
    ∃ v, URunLit v ∧ s = v ++ t := by
  match s with
  | [] => simp [stripURunLit] at h
  | [c0] => simp [stripURunLit] at h
  | [c0, c1] => simp [stripURunLit] at h
  | [c0, c1, c2] => simp [stripURunLit] at h
  | [c0, c1, c2, c3] => simp [stripURunLit] at h
  | c0 :: c1 :: c2 :: c3 :: c4 :: rest =>
    simp only [stripURunLit] at h
    split at h
    · rename_i hc
      obtain ⟨h0, h1, h2, h3, h4⟩ := hc
      subst h0
      subst h4
      obtain rfl : rest = t := by injection h
      exact ⟨['_', c1, c2, c3, '_'], ⟨c1, c2, c3, rfl, h1, h2, h3⟩, rfl⟩
    · exact absurd h (by simp)

theorem stripRunLit_append (u t : List Char) (h : RunLit u) :
    stripRunLit (u ++ t) = some t := by
  obtain ⟨c1, c2, c3, rfl, h1, h2, h3⟩ := h
  simp [stripRunLit, h1, h2, h3]

theorem stripRunLit_eq_some (s t : List Char) (h : stripRunLit s = some t) :
    ∃ u, RunLit u ∧ s = u ++ t := by
  match s with
  | [] => simp [stripRunLit] at h
  | [c0] => simp [stripRunLit] at h
  | [c0, c1] => simp [stripRunLit] at h
  | [c0, c1, c2] => simp [stripRunLit] at h
  | c0 :: c1 :: c2 :: c3 :: rest =>
    simp only [stripRunLit] at h
    split at h
    · rename_i hc
      obtain ⟨h0, h1, h2, h3⟩ := hc
      subst h3
      obtain rfl : rest = t := by injection h
      exact ⟨[c0, c1, c2, '_'], ⟨c0, c1, c2, rfl, h0, h1, h2⟩, rfl⟩
    · exact absurd h (by simp)

theorem takeWhile_maximal_split (p : Char → Bool) (a b : List Char)
    (ha : ∀ c ∈ a, p c) (hb : ∀ c ∈ b.take 1, p c = false) :
    (a ++ b).takeWhile p = a ∧ (a ++ b).dropWhile p = b := by
  induction a with
  | nil =>
    simp only [List.nil_append]
    cases b with
    | nil => simp
    | cons c t =>
      have hc : p c = false := hb c (by simp)
      simp [List.takeWhile_cons, List.dropWhile_cons, hc]
  | cons c a ih =>
    have hc : p c := ha c (by simp)
    have := ih (fun x hx => ha x (by simp [hx]))
    simp [List.takeWhile_cons, List.dropWhile_cons, hc, this.1, this.2]

theorem dropWhile_head_not (p : Char → Bool) (l : List Char) :
    ∀ c ∈ (l.dropWhile p).take 1, p c = false := by
  induction l with
  | nil => simp
  | cons c t ih =>
    by_cases hc : p c
    · simpa [List.dropWhile_cons, hc] using ih
    · simp only [List.dropWhile_cons]
      rw [if_neg hc]
      intro x hx
      simp at hx
      subst hx
      exact Bool.eq_false_iff.mpr hc

theorem matchUnitRun_complete (s : List Char) (n m : Nat) (h : UnitRunForm s n m) :
    matchUnitRun s = some (n, m) := by
  obtain ⟨u, d1, v, d2, rest, rfl, hu, hv, hd1ne, hd1dig, hd2ne, hd2dig, hrest, rfl, rfl⟩ := h
  have hvhead : ∀ c ∈ (v ++ (d2 ++ rest)).take 1, c.isDigit = false := by
    obtain ⟨c1, c2, c3, rfl, -, -, -⟩ := hv
    intro c hc
    simp only [List.cons_append, List.take_succ_cons, List.take_zero, List.mem_singleton] at hc
    subst hc
    decide
  have hsplit := takeWhile_maximal_split Char.isDigit d1 (v ++ (d2 ++ rest)) hd1dig hvhead
  have hsplit2 := takeWhile_maximal_split Char.isDigit d2 rest hd2dig hrest
  have harr : u ++ d1 ++ v ++ d2 ++ rest = u ++ (d1 ++ (v ++ (d2 ++ rest))) := by
    simp [List.append_assoc]
  rw [harr]
  simp only [matchUnitRun, stripUnitLit_append u _ hu, hsplit.1, hsplit.2,
    List.isEmpty_iff, hd1ne, if_false]
  rw [← List.append_assoc] at hsplit
  simp only [stripURunLit_append v _ hv, hsplit2.1, List.isEmpty_iff, hd2ne, if_false]

theorem matchRunOnly_complete (s : List Char) (m : Nat) (h : RunOnlyForm s m) :
    matchRunOnly s = some m := by
  obtain ⟨u, d, rest, rfl, hu, hdne, hddig, hrest, rfl⟩ := h
  have hsplit := takeWhile_maximal_split Char.isDigit d rest hddig hrest
  have harr : u ++ d ++ rest = u ++ (d ++ rest) := by simp [List.append_assoc]
  rw [harr]
  simp only [matchRunOnly, stripRunLit_append u _ hu, hsplit.1, hsplit.2,
    List.isEmpty_iff, hdne, if_false]

theorem matchUnitRun_sound (s : List Char) (n m : Nat) (h : matchUnitRun s = some (n, m)) :
    UnitRunForm s n m := by
  rcases h1 : stripUnitLit s with _ | r1
  · simp [matchUnitRun, h1] at h
  · simp only [matchUnitRun, h1] at h
    by_cases he : (r1.takeWhile Char.isDigit).isEmpty
    · simp [he] at h
    · simp only [he, Bool.false_eq_true, if_false] at h
      rcases h2 : stripURunLit (r1.dropWhile Char.isDigit) with _ | r2
      · simp [h2] at h
      · simp only [h2] at h
        by_cases he2 : (r2.takeWhile Char.isDigit).isEmpty
        · simp [he2] at h
        · simp only [he2, Bool.false_eq_true, if_false, Option.some.injEq, Prod.mk.injEq] at h
          obtain ⟨hn, hm⟩ := h
          obtain ⟨u, hu, rfl⟩ := stripUnitLit_eq_some _ _ h1
          obtain ⟨v, hv, hveq⟩ := stripURunLit_eq_some _ _ h2
          refine ⟨u, r1.takeWhile Char.isDigit, v, r2.takeWhile Char.isDigit,
            r2.dropWhile Char.isDigit, ?_, hu, hv, ?_, ?_, ?_, ?_, ?_, hn.symm, hm.symm⟩
          · rw [List.append_assoc, List.append_assoc, List.append_assoc,
              List.takeWhile_append_dropWhile, ← hveq, List.takeWhile_append_dropWhile]
          · simpa [List.isEmpty_iff] using he
          · exact fun c hc => List.mem_takeWhile_imp hc
          · simpa [List.isEmpty_iff] using he2
          · exact fun c hc => List.mem_takeWhile_imp hc
          · exact dropWhile_head_not Char.isDigit r2

theorem matchRunOnly_sound (s : List Char) (m : Nat) (h : matchRunOnly s = some m) :
    RunOnlyForm s m := by
  rcases h1 : stripRunLit s with _ | r
  · simp [matchRunOnly, h1] at h
  · simp only [matchRunOnly, h1] at h
    by_cases he : (r.takeWhile Char.isDigit).isEmpty
    · simp [he] at h
    · simp only [he, Bool.false_eq_true, if_false, Option.some.injEq] at h
      obtain ⟨u, hu, rfl⟩ := stripRunLit_eq_some _ _ h1
      refine ⟨u, r.takeWhile Char.isDigit, r.dropWhile Char.isDigit, ?_, hu, ?_, ?_, ?_, h.symm⟩
      · rw [List.append_assoc, List.takeWhile_append_dropWhile]
      · simpa [List.isEmpty_iff] using he
      · exact fun c hc => List.mem_takeWhile_imp hc
      · exact dropWhile_head_not Char.isDigit r

/-! ### Decimal formatting lemmas -/

theorem digitChar_isDigit (d : Nat) (h : d < 10) : (digitChar d).isDigit = true := by
  interval_cases d <;> decide

theorem digitVal_digitChar (d : Nat) (h : d < 10) : digitVal (digitChar d) = d := by
  interval_cases d <;> decide

theorem pyUpperChar_digitChar (d : Nat) (h : d < 10) : pyUpperChar (digitChar d) = digitChar d := by
  interval_cases d <;> decide

theorem valOfDigits_append_singleton (cs : List Char) (c : Char) :
    valOfDigits (cs ++ [c]) = 10 * valOfDigits cs + digitVal c := by
  simp [valOfDigits, List.foldl_append]

theorem natCharsAux_spec (fuel : Nat) :
    ∀ n : Nat, n < fuel →
      valOfDigits (natCharsAux fuel n) = n ∧ natCharsAux fuel n ≠ [] ∧
      ∀ c ∈ natCharsAux fuel n, ∃ d, d < 10 ∧ c = digitChar d := by
  induction fuel with
  | zero => intro n hn; omega
  | succ fuel ih =>
    intro n hn
    by_cases h10 : n < 10
    · simp only [natCharsAux, if_pos h10]
      refine ⟨?_, by simp, ?_⟩
      · simpa [valOfDigits] using digitVal_digitChar n h10
      · intro c hc
        simp only [List.mem_singleton] at hc
        exact ⟨n, h10, hc⟩
    · have hrec := ih (n / 10) (by omega)
      simp only [natCharsAux, if_neg h10]
      refine ⟨?_, by simp, ?_⟩
      · rw [valOfDigits_append_singleton, hrec.1, digitVal_digitChar (n % 10) (by omega)]
        omega
      · intro c hc
        rcases List.mem_append.mp hc with hc | hc
        · exact hrec.2.2 c hc
        · simp only [List.mem_singleton] at hc
          exact ⟨n % 10, by omega, hc⟩

theorem valOfDigits_natChars (n : Nat) : valOfDigits (natChars n) = n :=
  (natCharsAux_spec (n + 1) n (by omega)).1

theorem natChars_ne_nil (n : Nat) : natChars n ≠ [] :=
  (natCharsAux_spec (n + 1) n (by omega)).2.1

theorem mem_natChars (n : Nat) (c : Char) (h : c ∈ natChars n) :
    ∃ d, d < 10 ∧ c = digitChar d :=
  (natCharsAux_spec (n + 1) n (by omega)).2.2 c h

theorem mem_fmtPad (w n : Nat) (c : Char) (h : c ∈ fmtPad w n) :
    ∃ d, d < 10 ∧ c = digitChar d := by
  rcases List.mem_append.mp h with h | h
  · exact ⟨0, by omega, by simpa using List.eq_of_mem_replicate h⟩
  · exact mem_natChars n c h

theorem fmtPad_ne_nil (w n : Nat) : fmtPad w n ≠ [] := by
  intro h
  have := natChars_ne_nil n
  simp only [fmtPad, List.append_eq_nil] at h
  exact this h.2

theorem fmtPad_all_digit (w n : Nat) : ∀ c ∈ fmtPad w n, c.isDigit = true := by
  intro c hc
  obtain ⟨d, hd, rfl⟩ := mem_fmtPad w n c hc
  exact digitChar_isDigit d hd

theorem valOfDigits_replicate_zero (k : Nat) (cs : List Char) :
    valOfDigits (List.replicate k '0' ++ cs) = valOfDigits cs := by
  induction k with
  | zero => simp
  | succ k ih =>
    simpa [valOfDigits, List.replicate_succ, digitVal] using ih

theorem valOfDigits_fmtPad (w n : Nat) : valOfDigits (fmtPad w n) = n := by
  rw [fmtPad, valOfDigits_replicate_zero, valOfDigits_natChars]

theorem map_pyUpperChar_fmtPad (w n : Nat) : (fmtPad w n).map pyUpperChar = fmtPad w n := by
  have : ∀ c ∈ fmtPad w n, pyUpperChar c = c := by
    intro c hc
    obtain ⟨d, hd, rfl⟩ := mem_fmtPad w n c hc
    exact pyUpperChar_digitChar d hd
  calc (fmtPad w n).map pyUpperChar = (fmtPad w n).map id := List.map_congr_left this
    _ = fmtPad w n := List.map_id _

/-- C4 (amended). `parse_folder_name` is total and maps, case-insensitively:
a string whose prefix matches `UNIT_<n>_RUN_<m>` (maximal digit runs,
trailing characters ignored, as Python `re.match` anchors only at the
start) to `("unit_" ++ n zero-padded to 4 digits, "RUN_" ++ m zero-padded
to 3 digits)`; otherwise a string whose prefix matches `RUN_<m>` to
`("unit_0001", "RUN_" ++ m zero-padded to 3 digits)`; and any string
matching neither pattern to `("unit_0001", s)` verbatim. In particular
`UNIT_42_RUN_123` maps to `(unit_0042, RUN_123)` and `some_random_folder`
maps to `(unit_0001, some_random_folder)`. -/
theorem parse_folder_name_characterization :
    (∀ s n m, UnitRunForm s n m →
      parse_folder_name s = ("unit_".data ++ fmtPad 4 n, "RUN_".data ++ fmtPad 3 m)) ∧
    (∀ s m, (∀ n' m', ¬ UnitRunForm s n' m') → RunOnlyForm s m →
      parse_folder_name s = ("unit_0001".data, "RUN_".data ++ fmtPad 3 m)) ∧
    (∀ s, (∀ n m, ¬ UnitRunForm s n m) → (∀ m, ¬ RunOnlyForm s m) →
      parse_folder_name s = ("unit_0001".data, s)) ∧
    parse_folder_name "UNIT_42_RUN_123".data = ("unit_0042".data, "RUN_123".data) ∧
    parse_folder_name "UNIT_001_RUN_001".data = ("unit_0001".data, "RUN_001".data) ∧
    parse_folder_name "RUN_005".data = ("unit_0001".data, "RUN_005".data) ∧
    parse_folder_name "unit_001_run_001".data = ("unit_0001".data, "RUN_001".data) ∧
    parse_folder_name "some_random_folder".data
      = ("unit_0001".data, "some_random_folder".data) := by
  refine ⟨?_, ?_, ?_, by decide, by decide, by decide, by decide, by decide⟩
  · intro s n m h
    simp [parse_folder_name, matchUnitRun_complete s n m h]
  · intro s m hnot hrun
    have hmu : matchUnitRun s = none := by
      rcases hval : matchUnitRun s with _ | ⟨n1, m1⟩
      · rfl
      · exact absurd (matchUnitRun_sound s n1 m1 hval) (hnot n1 m1)
    simp [parse_folder_name, hmu, matchRunOnly_complete s m hrun]
  · intro s hnot hnotrun
    have hmu : matchUnitRun s = none := by
      rcases hval : matchUnitRun s with _ | ⟨n1, m1⟩
      · rfl
      · exact absurd (matchUnitRun_sound s n1 m1 hval) (hnot n1 m1)
    have hmr : matchRunOnly s = none := by
      rcases hval : matchRunOnly s with _ | m
      · rfl
      · exact absurd (matchRunOnly_sound s m hval) (hnotrun m)
    simp [parse_folder_name, hmu, hmr]

/-- C4 witness: the first conjunct applied to the concrete decomposition of
`UNIT_7_RUN_88`. -/
theorem parse_folder_name_characterization_witness :
    parse_folder_name "UNIT_7_RUN_88".data
      = ("unit_".data ++ fmtPad 4 7, "RUN_".data ++ fmtPad 3 88) :=
  parse_folder_name_characterization.1 "UNIT_7_RUN_88".data 7 88
    ⟨"UNIT_".data, ['7'], "_RUN_".data, ['8', '8'], [],
      by decide,
      ⟨'U', 'N', 'I', 'T', by decide, Or.inl rfl, Or.inl rfl, Or.inl rfl, Or.inl rfl⟩,
      ⟨'R', 'U', 'N', by decide, Or.inl rfl, Or.inl rfl, Or.inl rfl⟩,
      by decide, by decide, by decide, by decide, by decide, by decide, by decide⟩

/-- C4 counterexample to the claim as stated: `RUN_001x` is neither of the
exact form `UNIT_<n>_RUN_<m>` nor of the form `RUN_<m>` alone, so the claim
demands the verbatim fallback `("unit_0001", "RUN_001x")`; the code instead
matches the unanchored `RUN_(\d+)` pattern and returns
`("unit_0001", "RUN_001")`. -/
theorem parse_folder_name_claim_counterexample :
    parse_folder_name "RUN_001x".data = ("unit_0001".data, "RUN_001".data) ∧
    parse_folder_name "RUN_001x".data ≠ ("unit_0001".data, "RUN_001x".data) := by
  decide

theorem parse_folder_name_canon (n m : Nat) :
    parse_folder_name (canonRunDirName n m)
      = ("unit_".data ++ fmtPad 4 n, "RUN_".data ++ fmtPad 3 m) := by
  refine parse_folder_name_characterization.1 _ n m
    ⟨"UNIT_".data, fmtPad 4 n, "_RUN_".data, fmtPad 3 m, [],
      by simp [canonRunDirName, List.append_assoc],
      ⟨'U', 'N', 'I', 'T', by decide, Or.inl rfl, Or.inl rfl, Or.inl rfl, Or.inl rfl⟩,
      ⟨'R', 'U', 'N', by decide, Or.inl rfl, Or.inl rfl, Or.inl rfl⟩,
      fmtPad_ne_nil 4 n, fmtPad_all_digit 4 n, fmtPad_ne_nil 3 m, fmtPad_all_digit 3 m,
      by simp, (valOfDigits_fmtPad 4 n).symm, (valOfDigits_fmtPad 3 m).symm⟩

theorem output_dir_name_canon (n m : Nat) :
    output_dir_name (canonRunDirName n m) = canonRunDirName n m := by
  have h1 : "unit_".data.map pyUpperChar = "UNIT_".data := by decide
  have h3 : ("_RUN_".data : List Char) = '_' :: "RUN_".data := by decide
  rw [output_dir_name, parse_folder_name_canon]
  simp only [List.map_append, map_pyUpperChar_fmtPad, h1]
  rw [canonRunDirName, h3]
  simp [List.append_assoc]

/-- C5 (amended). The output directory name `{UNIT_ID}_{RUN_ID}` that
`convert_run` derives is a pure function of the run directory name, it
fixes every canonically named directory `UNIT_<4-digit n>_RUN_<3-digit m>`,
and it is collision-free on canonically named directories: two canonical
names yielding the same output directory name carry the same unit and run
numbers. (Collision-freeness over arbitrary distinct names is refuted by
the counterexample: non-canonical spellings of the same numbers collide.) -/
theorem run_identity_canonical (n m n' m' : Nat) :
    output_dir_name (canonRunDirName n m) = canonRunDirName n m ∧
    (output_dir_name (canonRunDirName n m) = output_dir_name (canonRunDirName n' m') →
      n = n' ∧ m = m') := by
  refine ⟨output_dir_name_canon n m, fun h => ?_⟩
  rw [output_dir_name_canon, output_dir_name_canon] at h
  have hp := congrArg parse_folder_name h
  rw [parse_folder_name_canon, parse_folder_name_canon] at hp
  simp only [Prod.mk.injEq] at hp
  constructor
  · have := congrArg valOfDigits (List.append_cancel_left hp.1)
    rwa [valOfDigits_fmtPad, valOfDigits_fmtPad] at this
  · have := congrArg valOfDigits (List.append_cancel_left hp.2)
    rwa [valOfDigits_fmtPad, valOfDigits_fmtPad] at this

/-- C5 witness: the fixed-point equation and the injectivity implication
evaluated at unit 12, run 5. -/
theorem run_identity_canonical_witness :
    output_dir_name (canonRunDirName 12 5) = canonRunDirName 12 5 ∧ (12 = 12 ∧ 5 = 5) :=
  ⟨(run_identity_canonical 12 5 12 5).1, (run_identity_canonical 12 5 12 5).2 rfl⟩

/-- C5 counterexample to the claim as stated: the distinct run directory
names `UNIT_1_RUN_2` and `UNIT_01_RUN_002` map to the same output
directory name (`UNIT_0001_RUN_002`), so distinct run directory names can
collide. -/
theorem run_identity_counterexample :
    output_dir_name "UNIT_1_RUN_2".data = output_dir_name "UNIT_01_RUN_002".data ∧
    ("UNIT_1_RUN_2".data : List Char) ≠ "UNIT_01_RUN_002".data := by
  decide

theorem seriesOf_cons (nm : String) (r : Nat × Nat × Nat) (t : List (Nat × Nat × Nat)) :
    seriesOf nm (r :: t)
      = (if SENSOR_ID_TO_NAME r.2.1 = some nm then [(r.1, r.2.2)] else []) ++ seriesOf nm t := by
  by_cases h : SENSOR_ID_TO_NAME r.2.1 = some nm
  · simp [seriesOf, List.filterMap_cons, h]
  · simp [seriesOf, List.filterMap_cons, h]

theorem foldl_splitStep (records : List (Nat × Nat × Nat)) :
    ∀ acc : List (String × List (Nat × Nat)),
      records.foldl splitStep acc = acc.map (fun p => (p.1, p.2 ++ seriesOf p.1 records)) := by
  induction records with
  | nil =>
    intro acc
    simp [seriesOf]
  | cons r t ih =>
    intro acc
    rw [List.foldl_cons, ih (splitStep acc r)]
    rcases htab : SENSOR_ID_TO_NAME r.2.1 with _ | nm0
    · have hstep : splitStep acc r = acc := by simp [splitStep, htab]
      rw [hstep]
      apply List.map_congr_left
      intro p _
      rw [seriesOf_cons, htab]
      simp
    · by_cases hmem : acc.any (fun p => p.1 = nm0) = true
      · have hstep : splitStep acc r
            = acc.map (fun p => if p.1 = nm0 then (p.1, p.2 ++ [(r.1, r.2.2)]) else p) := by
          simp only [splitStep, htab, hmem, if_true]
        rw [hstep, List.map_map]
        apply List.map_congr_left
        intro p _
        by_cases hpn : p.1 = nm0
        · simp only [Function.comp, if_pos hpn]
          rw [seriesOf_cons, htab]
          simp [hpn, List.append_assoc]
        · simp only [Function.comp, if_neg hpn]
          rw [seriesOf_cons, htab]
          simp [Ne.symm hpn]
      · have hstep : splitStep acc r = acc := by
          simp only [splitStep, htab]
          rw [if_neg hmem]
        rw [hstep]
        apply List.map_congr_left
        intro p hp
        have hpn : p.1 ≠ nm0 := by
          intro hcon
          exact hmem (List.any_eq_true.mpr ⟨p, hp, by simp [hcon]⟩)
        rw [seriesOf_cons, htab]
        simp [Ne.symm hpn]

theorem any_key_iff (acc : List (String × List (Nat × Nat))) (nm : String) :
    acc.any (fun p => p.1 = nm) = true ↔ nm ∈ acc.map (·.1) := by
  rw [List.any_eq_true]
  constructor
  · rintro ⟨p, hp, hd⟩
    simp only [decide_eq_true_eq] at hd
    exact List.mem_map.mpr ⟨p, hp, hd⟩
  · intro h
    obtain ⟨p, hp, hnm⟩ := List.mem_map.mp h
    exact ⟨p, hp, by simp [hnm]⟩

theorem initSensorMap_aux (ids : List Nat) :
    ∀ acc : List (String × List (Nat × Nat)),
      (∀ sid ∈ ids, (SENSOR_ID_TO_NAME sid).isSome) →
      (∀ p ∈ acc, p.2 = ([] : List (Nat × Nat))) →
      (acc.map (·.1)).Nodup →
      ∃ init,
        ids.foldlM
          (fun acc sid =>
            (SENSOR_ID_TO_NAME sid).map (fun nm =>
              if acc.any (fun p => p.1 = nm) then acc else acc ++ [(nm, [])]))
          acc = some init ∧
        (∀ p ∈ init, p.2 = []) ∧ (init.map (·.1)).Nodup ∧
        (∀ nm, nm ∈ init.map (·.1) ↔
          (nm ∈ acc.map (·.1) ∨ ∃ sid ∈ ids, SENSOR_ID_TO_NAME sid = some nm)) := by
  induction ids with
  | nil =>
    intro acc _ hval hnd
    refine ⟨acc, by simp, hval, hnd, ?_⟩
    simp
  | cons sid t ih =>
    intro acc h hval hnd
    obtain ⟨nm0, htab⟩ := Option.isSome_iff_exists.mp (h sid (by simp))
    by_cases hany : acc.any (fun p => p.1 = nm0) = true
    · obtain ⟨init, hfold, hv, hn, hiff⟩ := ih acc (fun s hs => h s (by simp [hs])) hval hnd
      refine ⟨init, ?_, hv, hn, ?_⟩
      · rw [List.foldlM_cons, htab]
        simp only [Option.map_some', Option.some_bind]
        rw [if_pos hany]
        exact hfold
      · intro nm
        rw [hiff nm]
        have hmem0 : nm0 ∈ acc.map (·.1) := (any_key_iff acc nm0).mp hany
        constructor
        · rintro (hl | ⟨s, hs, hss⟩)
          · exact Or.inl hl
          · exact Or.inr ⟨s, by simp [hs], hss⟩
        · rintro (hl | ⟨s, hs, hss⟩)
          · exact Or.inl hl
          · rcases List.mem_cons.mp hs with rfl | hs'
            · rw [htab] at hss
              obtain rfl : nm0 = nm := by injection hss
              exact Or.inl hmem0
            · exact Or.inr ⟨s, hs', hss⟩
    · have hnmem : nm0 ∉ acc.map (·.1) := fun hc => hany ((any_key_iff acc nm0).mpr hc)
      have hval' : ∀ p ∈ acc ++ [(nm0, ([] : List (Nat × Nat)))], p.2 = [] := by
        intro p hp
        rcases List.mem_append.mp hp with hp | hp
        · exact hval p hp
        · simp only [List.mem_singleton] at hp
          rw [hp]
      have hnd' : ((acc ++ [(nm0, ([] : List (Nat × Nat)))]).map (·.1)).Nodup := by
        rw [List.map_append, List.nodup_append]
        refine ⟨hnd, by simp, ?_⟩
        intro a ha hb
        simp only [List.map_cons, List.map_nil, List.mem_singleton] at hb
        subst hb
        exact hnmem ha
      obtain ⟨init, hfold, hv, hn, hiff⟩ :=
        ih (acc ++ [(nm0, [])]) (fun s hs => h s (by simp [hs])) hval' hnd'
      refine ⟨init, ?_, hv, hn, ?_⟩
      · rw [List.foldlM_cons, htab]
        simp only [Option.map_some', Option.some_bind]
        rw [if_neg hany]
        exact hfold
      · intro nm
        rw [hiff nm]
        rw [List.map_append]
        simp only [List.mem_append, List.map_cons, List.map_nil, List.mem_singleton]
        constructor
        · rintro ((hl | hl) | hr)
          · exact Or.inl hl
          · exact Or.inr ⟨sid, by simp, by rw [htab, hl]⟩
          · obtain ⟨s, hs, hss⟩ := hr
            exact Or.inr ⟨s, by simp [hs], hss⟩
        · rintro (hl | ⟨s, hs, hss⟩)
          · exact Or.inl (Or.inl hl)
          · rcases List.mem_cons.mp hs with rfl | hs'
            · rw [htab] at hss
              obtain rfl : nm0 = nm := by injection hss
              exact Or.inl (Or.inr rfl)
            · exact Or.inr ⟨s, hs', hss⟩

theorem sum_indicator_count (keys : List String) (x : String) (hnd : keys.Nodup) :
    (keys.map (fun nm => if x = nm then 1 else 0)).sum = if x ∈ keys then 1 else 0 := by
  induction keys with
  | nil => simp
  | cons k ks ih =>
    rw [List.map_cons, List.sum_cons, ih hnd.of_cons]
    by_cases hxk : x = k
    · subst hxk
      have hnot : x ∉ ks := (List.nodup_cons.mp hnd).1
      simp [hnot]
    · simp [hxk, List.mem_cons]

theorem sum_series_lengths (keys : List String) (hnd : keys.Nodup)
    (records : List (Nat × Nat × Nat)) :
    (keys.map (fun nm => (seriesOf nm records).length)).sum
      = (records.filter
          (fun r => keys.any (fun nm => SENSOR_ID_TO_NAME r.2.1 = some nm))).length := by
  induction records with
  | nil => simp [seriesOf]
  | cons r t ih =>
    have hlen : ∀ nm : String, (seriesOf nm (r :: t)).length
        = (if SENSOR_ID_TO_NAME r.2.1 = some nm then 1 else 0) + (seriesOf nm t).length := by
      intro nm
      rw [seriesOf_cons]
      by_cases hc : SENSOR_ID_TO_NAME r.2.1 = some nm
      · simp only [if_pos hc, List.singleton_append, List.length_cons]
        omega
      · simp [hc]
    have hsum : (keys.map (fun nm => (seriesOf nm (r :: t)).length)).sum
        = (keys.map (fun nm => if SENSOR_ID_TO_NAME r.2.1 = some nm then 1 else 0)).sum
          + (keys.map (fun nm => (seriesOf nm t).length)).sum := by
      rw [← List.sum_map_add]
      exact congrArg List.sum (List.map_congr_left (fun nm _ => hlen nm))
    rw [hsum, ih, List.filter_cons]
    rcases htab : SENSOR_ID_TO_NAME r.2.1 with _ | nm0
    · have h0 : (keys.map (fun nm => if (none : Option String) = some nm then 1 else 0)).sum
          = 0 := by
        simp
      have hnone : (keys.any (fun nm => (none : Option String) = some nm)) = false := by
        simp
      rw [h0, hnone]
      simp
    · have h1 : (keys.map (fun nm => if (some nm0 : Option String) = some nm then 1 else 0)).sum
          = if nm0 ∈ keys then 1 else 0 := by
        rw [← sum_indicator_count keys nm0 hnd]
        exact congrArg List.sum (List.map_congr_left (fun nm _ => by simp))
      rw [h1]
      by_cases hmem : nm0 ∈ keys
      · have hany : (keys.any (fun nm => (some nm0 : Option String) = some nm)) = true := by
        -- any over keys: witness nm0
          exact List.any_eq_true.mpr ⟨nm0, hmem, by simp⟩
        rw [hany]
        simp [hmem]
        omega
      · have hany : (keys.any (fun nm => (some nm0 : Option String) = some nm)) = false := by
          rw [List.any_eq_false]
          intro nm hnm
          simp only [decide_eq_true_eq, Option.some.injEq]
          intro hc
          exact hmem (hc ▸ hnm)
        rw [hany]
        simp [hmem]

theorem sum_filter_nonempty (l : List (String × List (Nat × Nat))) :
    ((l.filter (fun p => !p.2.isEmpty)).map (fun p => p.2.length)).sum
      = (l.map (fun p => p.2.length)).sum := by
  induction l with
  | nil => simp
  | cons q t ih =>
    rw [List.filter_cons]
    by_cases hq : q.2.isEmpty = true
    · rw [if_neg (by simp [hq])]
      have h0 : q.2 = [] := List.isEmpty_iff.mp hq
      simp [ih, h0]
    · rw [if_pos (by simp [hq])]
      simp [ih]

/-- C3. Demux is a stable partition: when every expected sensor id of the
tier is in the canonical table (otherwise the dict comprehension raises
`KeyError`, embedded as `none`), `split_by_sensor` succeeds, the record
counts of the output series sum to the number of input records whose
sensor id resolves to one of the tier's canonical sensor names
(unrecognized ids are dropped without error, accounting for the
difference), every output series is exactly the stable in-order filter
`seriesOf` of the input for its sensor name (first-occurrence order) and is
nonempty, and every tier sensor whose filter is nonempty appears; a sensor
with zero matching records is absent because only nonempty series pass the
final filter. -/
theorem split_by_sensor_stable_partition (records : List (Nat × Nat × Nat)) (ids : List Nat)
    (h : ∀ sid ∈ ids, (SENSOR_ID_TO_NAME sid).isSome) :
    ∃ res, split_by_sensor records ids = some res ∧
      (res.map (fun p => p.2.length)).sum
        = (records.filter (fun r => inTierTable ids r.2.1)).length ∧
      (∀ p ∈ res, p.2 = seriesOf p.1 records ∧ p.2 ≠ []) ∧
      (∀ sid nm, sid ∈ ids → SENSOR_ID_TO_NAME sid = some nm →
        seriesOf nm records ≠ [] → (nm, seriesOf nm records) ∈ res) := by
  obtain ⟨init, hfold, hval, hnd, hiff⟩ := initSensorMap_aux ids [] h (by simp) (by simp)
  have hinit : initSensorMap ids = some init := hfold
  have hmap : init.map (fun p => (p.1, p.2 ++ seriesOf p.1 records))
      = init.map (fun p => (p.1, seriesOf p.1 records)) :=
    List.map_congr_left (fun p hp => by rw [hval p hp]; simp)
  have hsplit : split_by_sensor records ids
      = some ((init.map (fun p => (p.1, seriesOf p.1 records))).filter
          (fun p => !p.2.isEmpty)) := by
    simp only [split_by_sensor, hinit, Option.map_some']
    rw [foldl_splitStep records init, hmap]
  refine ⟨_, hsplit, ?_, ?_, ?_⟩
  · rw [sum_filter_nonempty, List.map_map]
    have hstep : ((init.map fun p => (seriesOf p.1 records).length).sum
        = ((init.map (·.1)).map (fun nm => (seriesOf nm records).length)).sum) := by
      rw [List.map_map]
      rfl
    rw [show ((fun p => p.2.length) ∘ fun p : String × List (Nat × Nat) =>
        (p.1, seriesOf p.1 records)) = fun p => (seriesOf p.1 records).length from rfl]
    rw [hstep, sum_series_lengths (init.map (·.1)) hnd records]
    apply congrArg List.length
    apply List.filter_congr
    intro r _
    rcases htab : SENSOR_ID_TO_NAME r.2.1 with _ | nm0
    · have hl : ((init.map (·.1)).any fun nm => ((none : Option String) = some nm)) = false := by
        rw [List.any_eq_false]
        intro nm _
        simp
      rw [hl]
      simp [inTierTable, htab]
    · simp only [inTierTable, htab]
      apply Bool.coe_iff_coe.mp
      rw [List.any_eq_true, List.any_eq_true]
      constructor
      · rintro ⟨nm, hnm, hd⟩
        simp only [decide_eq_true_eq, Option.some.injEq] at hd
        obtain ⟨s, hs, hss⟩ := ((hiff nm0).mp (hd ▸ hnm)).resolve_left (by simp)
        exact ⟨s, hs, by simp [hss]⟩
      · rintro ⟨s, hs, hss⟩
        simp only [decide_eq_true_eq] at hss
        have : nm0 ∈ init.map (·.1) := (hiff nm0).mpr (Or.inr ⟨s, hs, hss⟩)
        exact ⟨nm0, this, by simp⟩
  · intro p hp
    obtain ⟨hp1, hp2⟩ := List.mem_filter.mp hp
    obtain ⟨q, hq, hpq⟩ := List.mem_map.mp hp1
    constructor
    · rw [← hpq]
    · intro hc
      rw [hc] at hp2
      simp at hp2
  · intro sid nm hsid htab hne
    have hkey : nm ∈ init.map (·.1) := (hiff nm).mpr (Or.inr ⟨sid, hsid, htab⟩)
    obtain ⟨q, hq, hq1⟩ := List.mem_map.mp hkey
    have hmem : (nm, seriesOf nm records) ∈ init.map (fun p => (p.1, seriesOf p.1 records)) :=
      List.mem_map.mpr ⟨q, hq, by rw [hq1]⟩
    exact List.mem_filter.mpr ⟨hmem, by simp [List.isEmpty_iff, hne]⟩

/-- C3 witness: the partition property evaluated on four concrete fast-tier
records, one of which carries the unrecognized sensor id 9. -/
theorem split_by_sensor_stable_partition_witness :
    ∃ res, split_by_sensor [(0, 0, 10), (1, 9, 11), (2, 1, 12), (3, 0, 13)] [0, 1] = some res ∧
      (res.map (fun p => p.2.length)).sum
        = (([(0, 0, 10), (1, 9, 11), (2, 1, 12), (3, 0, 13)] :
            List (Nat × Nat × Nat)).filter (fun r => inTierTable [0, 1] r.2.1)).length ∧
      (∀ p ∈ res,
        p.2 = seriesOf p.1 [(0, 0, 10), (1, 9, 11), (2, 1, 12), (3, 0, 13)] ∧ p.2 ≠ []) ∧
      (∀ sid nm, sid ∈ [0, 1] → SENSOR_ID_TO_NAME sid = some nm →
        seriesOf nm [(0, 0, 10), (1, 9, 11), (2, 1, 12), (3, 0, 13)] ≠ [] →
        (nm, seriesOf nm [(0, 0, 10), (1, 9, 11), (2, 1, 12), (3, 0, 13)]) ∈ res) :=
  split_by_sensor_stable_partition [(0, 0, 10), (1, 9, 11), (2, 1, 12), (3, 0, 13)] [0, 1]
    (by decide)

/-- C6. Validation verdict: `validate_run` marks a run invalid exactly when
`meta.json` is present and fails to parse; errors arise from no other
condition; a missing `meta.json` yields only a warning; a present tier
file whose size is not a multiple of its record size yields only its
warning, leaving `valid` governed by the descriptor alone; and on an empty
directory the result reports all three tier files as not found, zero
errors, exactly one warning (the missing descriptor), and `valid = true`. -/
theorem validate_run_verdict :
    (∀ d : RunDirState, (validate_run d).valid = true ↔ d.meta ≠ some MetaFile.unparseable) ∧
    (∀ d : RunDirState, (validate_run d).errors
      = if d.meta = some MetaFile.unparseable then [ErrTag.metaParseFailed] else []) ∧
    (∀ d : RunDirState, d.meta = none → WarnTag.metaNotFound ∈ (validate_run d).warnings) ∧
    (∀ (d : RunDirState) (bs : List Nat), d.fast = some bs → bs.length % 12 ≠ 0 →
      WarnTag.sizeNotDivisible "fast_data.bin" ∈ (validate_run d).warnings ∧
      ((validate_run d).valid = true ↔ d.meta ≠ some MetaFile.unparseable)) ∧
    (∀ (d : RunDirState) (bs : List Nat), d.medium = some bs → bs.length % 8 ≠ 0 →
      WarnTag.sizeNotDivisible "medium_data.bin" ∈ (validate_run d).warnings) ∧
    (∀ (d : RunDirState) (bs : List Nat), d.slow = some bs → bs.length % 12 ≠ 0 →
      WarnTag.sizeNotDivisible "slow_data.bin" ∈ (validate_run d).warnings) ∧
    validate_run ⟨none, none, none, none⟩
      = { valid := true, errors := [], warnings := [WarnTag.metaNotFound],
          files := [("fast_data.bin", FileReport.notFound),
                    ("medium_data.bin", FileReport.notFound),
                    ("slow_data.bin", FileReport.notFound)],
          metadata := some MetaReport.notFound } := by
  have hvalid : ∀ d : RunDirState,
      (validate_run d).valid = true ↔ d.meta ≠ some MetaFile.unparseable := by
    intro d
    rcases d with ⟨f, md, s, mt⟩
    rcases mt with _ | mf
    · simp [validate_run]
    · rcases mf with m | _
      · simp [validate_run]
      · simp [validate_run]
  have hwarn : ∀ d : RunDirState,
      (validate_run d).warnings
        = tierFileWarnings d.fast 12 "fast_data.bin"
          ++ tierFileWarnings d.medium 8 "medium_data.bin"
          ++ tierFileWarnings d.slow 12 "slow_data.bin"
          ++ (if d.meta = none then [WarnTag.metaNotFound] else []) := by
    intro d
    rcases d with ⟨f, md, s, mt⟩
    rcases mt with _ | mf
    · simp [validate_run]
    · rcases mf with m | _
      · simp [validate_run]
      · simp [validate_run]
  refine ⟨hvalid, ?_, ?_, ?_, ?_, ?_, by rfl⟩
  · intro d
    rcases d with ⟨f, md, s, mt⟩
    rcases mt with _ | mf
    · simp [validate_run]
    · rcases mf with m | _
      · simp [validate_run]
      · simp [validate_run]
  · intro d hmeta
    rw [hwarn d, hmeta]
    simp
  · intro d bs hf hmod
    refine ⟨?_, hvalid d⟩
    rw [hwarn d, hf]
    simp [tierFileWarnings, Nat.pos_of_ne_zero hmod]
  · intro d bs hf hmod
    rw [hwarn d, hf]
    simp [tierFileWarnings, Nat.pos_of_ne_zero hmod]
  · intro d bs hf hmod
    rw [hwarn d, hf]
    simp [tierFileWarnings, Nat.pos_of_ne_zero hmod]

/-- C6 witness: the verdict clauses applied to a directory holding a
13-byte `fast_data.bin` (one record plus one dangling byte) and no
descriptor. -/
theorem validate_run_verdict_witness :
    (validate_run ⟨some (List.replicate 13 0), none, none, none⟩).valid = true ∧
    WarnTag.sizeNotDivisible "fast_data.bin"
      ∈ (validate_run ⟨some (List.replicate 13 0), none, none, none⟩).warnings ∧
    WarnTag.metaNotFound
      ∈ (validate_run ⟨some (List.replicate 13 0), none, none, none⟩).warnings := by
  refine ⟨?_, ?_, ?_⟩
  · exact (validate_run_verdict.1 ⟨some (List.replicate 13 0), none, none, none⟩).mpr
      (by simp)
  · exact (validate_run_verdict.2.2.2.1 ⟨some (List.replicate 13 0), none, none, none⟩
      (List.replicate 13 0) rfl (by decide)).1
  · exact validate_run_verdict.2.2.1 ⟨some (List.replicate 13 0), none, none, none⟩ rfl

/-- C7 (amended). Structural input errors in single-run convert: a missing
run directory fails with an error surfaced to the caller (the CLI's
existence check rejects it before conversion); but a run directory that
exists with none of the three tier files and no firmware descriptor is not
an error: `convert_run` completes, producing zero output files and zero
session records. -/
theorem structural_input_errors_amended :
    (∀ (dirName : List Char) (o : Option (List Char)) (hl : HealthLabel) (now : Int),
      cli_convert none dirName o hl now = Except.error CliError.runDirNotFound) ∧
    (∀ (dirName : List Char) (o : Option (List Char)) (hl : HealthLabel) (now : Int),
      convert_run emptyRunDir dirName o hl now = ([], [])) := by
  exact ⟨fun _ _ _ _ => rfl, fun _ _ _ _ => rfl⟩

/-- C7 counterexample to the claim as stated: on a run directory that
exists but lacks all three tier files and the descriptor, the claim
demands a surfaced error; instead the single-run convert completes
successfully with empty output. -/
theorem structural_input_errors_counterexample :
    cli_convert (some emptyRunDir) "RUN_001".data none HealthLabel.unknown 0
      = Except.ok ([], []) := by
  rfl

theorem convert_all_runs_acc (runs : List (Except String (List Session))) :
    ∀ acc : List Session,
      runs.foldl
        (fun acc r => match r with | Except.ok s => acc ++ s | Except.error _ => acc)
        acc
      = acc ++ convert_all_runs runs := by
  induction runs with
  | nil => intro acc; simp [convert_all_runs]
  | cons r t ih =>
    intro acc
    rcases r with e | s
    · simpa [convert_all_runs, List.foldl_cons] using ih acc
    · rw [convert_all_runs, List.foldl_cons, List.foldl_cons]
      simp only
      rw [ih (acc ++ s), ih ([] ++ s), List.append_assoc]
      simp

theorem convert_all_runs_cons (r : Except String (List Session))
    (t : List (Except String (List Session))) :
    convert_all_runs (r :: t)
      = (match r with | Except.ok s => s | Except.error _ => []) ++ convert_all_runs t := by
  rcases r with e | s
  · rfl
  · rw [convert_all_runs, List.foldl_cons]
    simp only
    rw [convert_all_runs_acc t ([] ++ s)]
    simp

theorem convert_all_runs_append (xs ys : List (Except String (List Session))) :
    convert_all_runs (xs ++ ys) = convert_all_runs xs ++ convert_all_runs ys := by
  induction xs with
  | nil => simp [convert_all_runs]
  | cons r t ih =>
    rw [List.cons_append, convert_all_runs_cons, convert_all_runs_cons, ih,
      List.append_assoc]

theorem sessions_sublist_of_ok (l : List (Except String (List Session))) (s : List Session)
    (h : Except.ok s ∈ l) : s.Sublist (convert_all_runs l) := by
  induction l with
  | nil => simp at h
  | cons r t ih =>
    rcases List.mem_cons.mp h with rfl | h'
    · rw [convert_all_runs_cons]
      exact List.sublist_append_left s (convert_all_runs t)
    · rw [convert_all_runs_cons]
      exact (ih h').trans (List.sublist_append_right _ _)

/-- C8. Batch isolation: a run whose conversion raises is skipped without
affecting the others: the batch result with the failing run inserted
equals the result without it, every successful run's session records still
appear (as a sublist, in order) in the returned list, and when the batch
produced any sessions the combined session table is written from exactly
that returned list. -/
theorem batch_isolation (xs ys : List (Except String (List Session))) (e : String) :
    convert_all_runs (xs ++ Except.error e :: ys) = convert_all_runs (xs ++ ys) ∧
    (∀ s : List Session, Except.ok s ∈ xs ++ ys →
      s.Sublist (convert_all_runs (xs ++ Except.error e :: ys))) ∧
    (∀ existing : Option (List Session),
      convert_all_runs (xs ++ Except.error e :: ys) ≠ [] →
      write_sessions_batch existing (convert_all_runs (xs ++ Except.error e :: ys))
        = some (convert_all_runs (xs ++ ys))) := by
  have hkey : convert_all_runs (xs ++ Except.error e :: ys) = convert_all_runs (xs ++ ys) := by
    rw [convert_all_runs_append, convert_all_runs_cons, convert_all_runs_append]
    simp
  refine ⟨hkey, ?_, ?_⟩
  · intro s hs
    rw [hkey]
    exact sessions_sublist_of_ok (xs ++ ys) s hs
  · intro existing hne
    rw [write_sessions_batch, if_neg (by simpa [List.isEmpty_iff] using hne), hkey]

/-- C8 witness: a three-run batch whose middle run raises produces the same
sessions as the two-run batch without it. -/
theorem batch_isolation_witness :
    convert_all_runs ([Except.ok [demoSession]] ++ Except.error "boom" :: [Except.ok [demoSession]])
      = convert_all_runs ([Except.ok [demoSession]] ++ [Except.ok [demoSession]]) ∧
    write_sessions_batch none
      (convert_all_runs ([Except.ok [demoSession]] ++ Except.error "boom" :: [Except.ok [demoSession]]))
      = some (convert_all_runs ([Except.ok [demoSession]] ++ [Except.ok [demoSession]])) := by
  refine ⟨(batch_isolation [Except.ok [demoSession]] [Except.ok [demoSession]] "boom").1, ?_⟩
  exact (batch_isolation [Except.ok [demoSession]] [Except.ok [demoSession]] "boom").2.2 none
    (by decide)

/-- C9 counterexample to the claim as stated: with one row already stored
in `sessions.csv`, the batch `convert-all` write replaces the file with
the new rows alone, so the previously stored row is discarded rather than
preserved with the new rows appended. -/
theorem session_table_append_only_counterexample :
    write_sessions_batch (some [(0 : Nat)]) [1] = some [1] ∧
    write_sessions_batch (some [(0 : Nat)]) [1] ≠ some [0, 1] := by
  decide

/-- C9 (amended). The combined session table is append-only for the
single-run `convert` CLI path: when rows are written over an existing
file, the existing rows are preserved unchanged as a prefix and the new
rows appended after them. The batch `convert-all` path instead overwrites:
it writes exactly the batch's rows, discarding any previous file content
(when the batch produced no sessions nothing is written). -/
theorem session_table_append_amended {α : Type} (existing newRows : List α)
    (h : newRows ≠ []) :
    write_sessions_single (some existing) newRows = some (existing ++ newRows) ∧
    write_sessions_batch (some existing) newRows = some newRows := by
  have hne : newRows.isEmpty = false := by simp [List.isEmpty_iff, h]
  constructor
  · rw [write_sessions_single, hne]
    rfl
  · rw [write_sessions_batch, hne]
    rfl

/-- C9 witness: the two write paths evaluated over an existing single-row
file. -/
theorem session_table_append_amended_witness :
    write_sessions_single (some [(0 : Nat)]) [1] = some [0, 1] ∧
    write_sessions_batch (some [(0 : Nat)]) [1] = some [1] :=
  session_table_append_amended [0] [1] (by decide)

/-- C10 is a code bug: `to_csv_row` renders `start_time_utc` as
`isoformat() + "Z"`, but the datetime is always timezone-aware, so
`isoformat()` already ends in the `+00:00` offset and the appended `Z`
yields `...+00:00Z`, which is not a valid ISO-8601 timestamp (a `Z` and a
numeric offset are mutually exclusive). At the Unix epoch the emitted cell
is exactly `1970-01-01T00:00:00+00:00Z`; the checker accepts either
well-formed variant and rejects the emitted string, here and at a second
timestamp. -/
theorem start_time_cell_not_iso8601 :
    csv_row_start_time_utc 0 = "1970-01-01T00:00:00+00:00Z".data ∧
    isValidISO8601UTC "1970-01-01T00:00:00+00:00Z".data = false ∧
    isValidISO8601UTC "1970-01-01T00:00:00+00:00".data = true ∧
    isValidISO8601UTC "1970-01-01T00:00:00Z".data = true ∧
    isValidISO8601UTC (csv_row_start_time_utc 1755168000) = false := by
  decide

